import Mathlib

/-!
Verification of the real-time transcript assembly and question-triage
pipeline of the live-video-doubt-chat application.

The embedding is shallow: JavaScript numbers carrying timestamps are
modelled as rationals, JavaScript strings as Lean strings manipulated
through their character lists (the built-in byte-position based string
functions are replaced by executable character-list versions so that
every definition evaluates in the kernel), and the external `JSON.parse`
service is a parameter of the parsing routine.
-/

namespace DoubtChat

/-- Whitespace test used by the character-level model of JS `String.trim`. -/
def isJsSpace (c : Char) : Bool :=
  c = ' ' || c = '\t' || c = '\n' || c = '\r'

/-- Character-list model of JS `String.prototype.trim`. -/
def jsTrim (s : String) : String :=
  String.mk (((s.data.dropWhile isJsSpace).reverse.dropWhile isJsSpace).reverse)

/-- Character-list model of JS `String.prototype.startsWith`. -/
def strStartsWith (s p : String) : Bool :=
  p.data.isPrefixOf s.data

/-- Character-list model of JS `String.prototype.endsWith`. -/
def strEndsWith (s p : String) : Bool :=
  p.data.reverse.isPrefixOf s.data.reverse

/-- Model of JS `s.split('\n')`. -/
def splitLines (s : String) : List String :=
  (s.data.splitOn '\n').map String.mk

/-- Model of JS `lines.join('\n')`. -/
def joinLines (l : List String) : String :=
  String.mk (List.intercalate ['\n'] (l.map String.data))

/-- Number of occurrences of a character in a string
(JS `s.split(c).length` equals this count plus one). -/
def countChar (s : String) (c : Char) : Nat :=
  s.data.count c

/-- Space-separated concatenation of a list of strings. -/
def joinSp : List String → String
  | [] => ""
  | [t] => t
  | t :: t' :: rest => t ++ " " ++ joinSp (t' :: rest)

/-- Raw token as delivered by the speech-recognition source
(`result.tokens` entries in `useSonioxTranscription`). -/
structure RawToken where
  text : String
  start_ms : ℚ
  end_ms : ℚ
  is_final : Bool
  confidence : ℚ
deriving DecidableEq

/-- TranscriptSegment from `useSonioxTranscription` (the hook's
`TranscriptSegment` interface). -/
structure TranscriptSegment where
  id : String
  text : String
  startTime : ℚ
  endTime : ℚ
  isFinal : Bool
  confidence : ℚ
deriving DecidableEq

/-- Mapping of a raw recognizer token to a `TranscriptSegment`,
following the `result.tokens.map` in `onPartialResult`.  The Unicode NFC
normalisation applied there is the identity on the model's strings. -/
def mapToken (tk : RawToken) : TranscriptSegment :=
  { id := "segment-" ++ toString tk.start_ms ++ "-" ++ toString tk.end_ms
          ++ "-" ++ (if tk.is_final then "f" else "p")
    text := jsTrim tk.text
    startTime := tk.start_ms / 1000
    endTime := tk.end_ms / 1000
    isFinal := tk.is_final
    confidence := tk.confidence }

/-- The duplicate test of `onPartialResult`: identical text and a start
time within 0.5 seconds. -/
def sameFinal (ex nf : TranscriptSegment) : Prop :=
  ex.text = nf.text ∧ |ex.startTime - nf.startTime| < (1 : ℚ) / 2

instance (ex nf : TranscriptSegment) : Decidable (sameFinal ex nf) := by
  unfold sameFinal
  infer_instance

/-- One step of the final-token deduplication loop in `onPartialResult`:
the incoming final is skipped when some already-accepted final has
identical text and a start time within 0.5 seconds. -/
def dedupStep (acc : List TranscriptSegment) (nf : TranscriptSegment) :
    List TranscriptSegment :=
  if ∃ ex ∈ acc, sameFinal ex nf then
    acc
  else
    acc ++ [nf]

/-- The `incomingFinals.forEach` deduplication fold of `onPartialResult`. -/
def dedupFinals (existing incoming : List TranscriptSegment) :
    List TranscriptSegment :=
  incoming.foldl dedupStep existing

/-- Stable sort by start time, modelling the JS
`combined.sort((a, b) => a.startTime - b.startTime)`. -/
def sortByStart (l : List TranscriptSegment) : List TranscriptSegment :=
  l.mergeSort (fun a b => decide (a.startTime ≤ b.startTime))

/-- The transcript update performed by `onPartialResult` in
`useSonioxTranscription` for one recognition result: when the incoming
batch is empty the guard `result.tokens.length > 0` fails and the
transcript is left untouched; otherwise previous finals are kept,
incoming finals are deduplicated against them, incoming provisionals are
appended, and the result is sorted by start time. -/
def applyResult (prev : List TranscriptSegment) (tokens : List RawToken) :
    List TranscriptSegment :=
  if tokens.isEmpty then prev
  else
    let incoming := tokens.map mapToken
    let existingFinals := prev.filter (fun s => s.isFinal)
    let incomingFinals := incoming.filter (fun t => t.isFinal && decide (0 < t.text.length))
    let incomingProvisional := incoming.filter (fun t => !t.isFinal && decide (0 < t.text.length))
    let allFinals := dedupFinals existingFinals incomingFinals
    sortByStart (allFinals ++ incomingProvisional)

/-- Shorthand for the incoming-final filter of `applyResult`. -/
def incFinals (tokens : List RawToken) : List TranscriptSegment :=
  (tokens.map mapToken).filter (fun t => t.isFinal && decide (0 < t.text.length))

/-- Shorthand for the incoming-provisional filter of `applyResult`. -/
def incProvisionals (tokens : List RawToken) : List TranscriptSegment :=
  (tokens.map mapToken).filter (fun t => !t.isFinal && decide (0 < t.text.length))

/-- Number of final tokens in a transcript. -/
def countFinals (ts : List TranscriptSegment) : Nat :=
  (ts.filter (fun s => s.isFinal)).length

/-- Number of provisional tokens in a transcript. -/
def countProvisionals (ts : List TranscriptSegment) : Nat :=
  (ts.filter (fun s => !s.isFinal)).length

/-- The `recentWindow` operation: `getRecentTranscript` filters the
transcript by `referenceTime - segment.startTime <= horizonSeconds`
(the same filter appears in the hook and in both chat dialogs). -/
def getRecentTranscript (referenceTime horizonSeconds : ℚ)
    (transcript : List TranscriptSegment) : List TranscriptSegment :=
  transcript.filter (fun s => decide (referenceTime - s.startTime ≤ horizonSeconds))

/-- Sentence view produced by `processedTranscript` in
`TranscriptPanel.tsx`. -/
structure Sentence where
  text : String
  startTime : ℚ
  endTime : ℚ
  isFinal : Bool
deriving DecidableEq

/-- Test for the regex `/[.!?।॥]$/`: the text ends with a Latin or
Devanagari sentence-terminal punctuation mark. -/
def endsWithTerminal (t : String) : Bool :=
  match t.data.getLast? with
  | some c => c = '.' || c = '!' || c = '?' || c = '।' || c = '॥'
  | none => false

/-- The disjunction `endsWithPunctuation || hasSignificantTimeGap ||
(isLastSegment && segment.isFinal)` computed in the loop body of
`processedTranscript`, as a function of the current token and the rest of
the transcript: the current token's trimmed text ends in a Latin or
Devanagari terminal mark, or the gap to the next token's start exceeds
2 seconds, or the token is the last of the transcript and final.  This is
also the specification's sentence-closing rule, word for word. -/
def closesSentence (seg : TranscriptSegment) (rest : List TranscriptSegment) : Bool :=
  endsWithTerminal (jsTrim seg.text) ||
  (match rest with
   | [] => false
   | nxt :: _ => decide (nxt.startTime - seg.endTime > 2)) ||
  (rest.isEmpty && seg.isFinal)

/-- Body of the `transcript.forEach` loop of `processedTranscript`,
carrying the running sentence buffer and its start/end times.  The tail
of the list plays the role of `transcript[index + 1]` and of the
`index === transcript.length - 1` test; empty-trimmed tokens are skipped
without touching the buffer. -/
def toSentencesAux (cur : String) (sStart sEnd : ℚ) :
    List TranscriptSegment → List Sentence
  | [] => if cur = "" then [] else [⟨cur, sStart, sEnd, false⟩]
  | seg :: rest =>
    if jsTrim seg.text = "" then toSentencesAux cur sStart sEnd rest
    else if closesSentence seg rest then
      ⟨(if cur = "" then jsTrim seg.text else cur ++ " " ++ jsTrim seg.text),
       (if cur = "" then seg.startTime else sStart), seg.endTime, seg.isFinal⟩
        :: toSentencesAux "" (if cur = "" then seg.startTime else sStart) seg.endTime rest
    else
      toSentencesAux (if cur = "" then jsTrim seg.text else cur ++ " " ++ jsTrim seg.text)
        (if cur = "" then seg.startTime else sStart) seg.endTime rest

/-- The `toSentences` operation: the `processedTranscript` memo of
`TranscriptPanel.tsx`. -/
def toSentences (ts : List TranscriptSegment) : List Sentence :=
  if ts.isEmpty then [] else toSentencesAux "" 0 0 ts

/-- The non-empty trimmed texts of the transcript's tokens, in order. -/
def filtTexts (ts : List TranscriptSegment) : List String :=
  (ts.map (fun s => jsTrim s.text)).filter (fun t => decide (t ≠ ""))

/-- Structured payload extracted from a language-model response in
`src/app/api/chat/route.ts` (fields `is_genuine`, `category`,
`confidence`, `reason` and, for the generator, `answer`). -/
structure LLMResponse where
  is_genuine : Bool
  category : String
  confidence : ℚ
  reason : String
  answer : Option String
deriving DecidableEq

/-- The classification block placed in the response envelope by `POST`. -/
structure ClassificationOut where
  is_genuine : Bool
  category : String
  confidence : ℚ
  reason : String
deriving DecidableEq

/-- Projection of a parsed classifier result onto the envelope's
classification block, as built at the top of STEP 2 of `POST`. -/
def projCls (cls : LLMResponse) : ClassificationOut :=
  ⟨cls.is_genuine, cls.category, cls.confidence, cls.reason⟩

/-- The fixed, language-dependent acknowledgment returned on the
`guidance` branch of `POST`. -/
def guidanceReply (language : String) : String :=
  if language = "hindi" then
    "यह अभी क्लास में समझाया गया था। कृपया ध्यान से सुनें।"
  else
    "This was just explained in the class. Please pay attention."

/-- The clarification-request fallback substituted for an empty generator
answer (`result.answer || 'कृपया अपना प्रश्न स्पष्ट करें।'`). -/
def clarificationFallback : String :=
  "कृपया अपना प्रश्न स्पष्ट करें।"

/-- JS `result.answer || fallback`: `null`, a missing field and the empty
string are all falsy and replaced by the fallback. -/
def answerOrFallback (answer : Option String) : String :=
  match answer with
  | some a => if a = "" then clarificationFallback else a
  | none => clarificationFallback

/-- The cost-control gate of `POST`: the expensive generator is called
exactly on the `classification.category === 'subject_based'` branch. -/
def invokesGenerator (cls : LLMResponse) : Bool :=
  cls.category = "subject_based"

/-- Uniform response envelope `{ classification, reply }` returned by
`POST`. -/
structure Envelope where
  classification : ClassificationOut
  reply : Option String
deriving DecidableEq

/-- Response assembly of `POST` given the parsed classifier output, the
request language and the parsed generator output (the latter is only
consulted on the `subject_based` branch; on `guidance` a fixed string is
returned and otherwise the reply stays `null`). -/
def routeResponse (cls : LLMResponse) (language : String)
    (genResult : LLMResponse) : Envelope :=
  if cls.category = "subject_based" then
    ⟨projCls cls, some (answerOrFallback genResult.answer)⟩
  else
    ⟨projCls cls, if cls.category = "guidance" then some (guidanceReply language) else none⟩

/-- Fallback classification returned by `extractJsonResponse` when no
parse attempt succeeds. -/
def errorClassification : LLMResponse :=
  ⟨false, "error", 0, "Failed to parse response", none⟩

/-- The code-fence stripping loop of `extractJsonResponse`: lines between
fence markers (or from a line opening a brace onward) are collected, and
collection stops after a line that closes at least as many braces as it
opens. -/
def stripLoop : Bool → List String → List String → List String
  | _, acc, [] => acc
  | inJson, acc, line :: rest =>
    if strStartsWith (jsTrim line) "```" then
      stripLoop (!inJson) acc rest
    else if inJson || strStartsWith (jsTrim line) "\x7b" || decide (0 < acc.length) then
      let acc' := acc ++ [line]
      if strEndsWith (jsTrim line) "\x7d" && decide (countChar line '{' ≤ countChar line '}') then
        acc'
      else
        stripLoop inJson acc' rest
    else
      stripLoop inJson acc rest

/-- The cleaning phase of `extractJsonResponse`: trim, then strip
markdown code fences when the content starts with one. -/
def stripFences (content : String) : String :=
  let c := jsTrim content
  if strStartsWith c "```" then joinLines (stripLoop false [] (splitLines c)) else c

/-- The fallback scan of `extractJsonResponse`'s catch block: the region
from the first `\x7b` to the last `\x7d` of the raw content, when that
region is non-degenerate. -/
def braceSubstring (content : String) : Option String :=
  match content.data.findIdx? (fun ch => ch = '{'),
        content.data.reverse.findIdx? (fun ch => ch = '}') with
  | some s, some rIdx =>
    let e := content.data.length - rIdx
    if s < e then some (String.mk ((content.data.drop s).take (e - s))) else none
  | _, _ => none

/-- The tolerant parser `extractJsonResponse` of the chat route.  The
external `JSON.parse` (together with the coercion of the parsed JSON into
the expected fields) is modelled as the oracle `parse`; a `none` result
stands for a parse exception.  When both the cleaned content and the
first-to-last-brace substring fail to parse, the safe default
`errorClassification` is returned. -/
def extractJsonResponse (parse : String → Option LLMResponse)
    (content : String) : LLMResponse :=
  match parse (stripFences content) with
  | some r => r
  | none =>
    match braceSubstring content with
    | some sub => (parse sub).getD errorClassification
    | none => errorClassification

/-!
Helper lemmas about the deduplication fold and `applyResult`.
-/

lemma mem_dedupStep_of_mem {acc : List TranscriptSegment} {nf x : TranscriptSegment}
    (h : x ∈ acc) : x ∈ dedupStep acc nf := by
  unfold dedupStep
  split
  · exact h
  · exact List.mem_append_left _ h

lemma mem_dedupFinals_of_mem :
    ∀ (incoming existing : List TranscriptSegment) (x : TranscriptSegment),
      x ∈ existing → x ∈ dedupFinals existing incoming := by
  intro incoming
  induction incoming with
  | nil => intro ex x h; simpa [dedupFinals] using h
  | cons nf t ih =>
    intro ex x h
    have : x ∈ dedupStep ex nf := mem_dedupStep_of_mem h
    simpa [dedupFinals, List.foldl_cons] using ih (dedupStep ex nf) x this

lemma sameFinal_refl (x : TranscriptSegment) : sameFinal x x := by
  refine ⟨rfl, ?_⟩
  simp only [sub_self, abs_zero]
  norm_num

lemma exists_match_dedupStep (acc : List TranscriptSegment) (nf : TranscriptSegment) :
    ∃ ex ∈ dedupStep acc nf, sameFinal ex nf := by
  unfold dedupStep
  split
  · assumption
  · exact ⟨nf, List.mem_append_right _ (List.mem_singleton.mpr rfl), sameFinal_refl nf⟩

lemma dedupFinals_covers :
    ∀ (incoming existing : List TranscriptSegment) (nf : TranscriptSegment),
      nf ∈ incoming → ∃ ex ∈ dedupFinals existing incoming, sameFinal ex nf := by
  intro incoming
  induction incoming with
  | nil => intro ex nf h; cases h
  | cons hd t ih =>
    intro ex nf h
    rcases List.mem_cons.mp h with h | h
    · subst h
      obtain ⟨e, he, hm⟩ := exists_match_dedupStep ex nf
      refine ⟨e, ?_, hm⟩
      simpa [dedupFinals, List.foldl_cons] using
        mem_dedupFinals_of_mem t (dedupStep ex nf) e he
    · simpa [dedupFinals, List.foldl_cons] using ih (dedupStep ex hd) nf h

lemma mem_dedupFinals_src :
    ∀ (incoming existing : List TranscriptSegment) (x : TranscriptSegment),
      x ∈ dedupFinals existing incoming → x ∈ existing ∨ x ∈ incoming := by
  intro incoming
  induction incoming with
  | nil => intro ex x h; exact Or.inl (by simpa [dedupFinals] using h)
  | cons hd t ih =>
    intro ex x h
    have h' : x ∈ dedupFinals (dedupStep ex hd) t := by
      simpa [dedupFinals, List.foldl_cons] using h
    rcases ih (dedupStep ex hd) x h' with h'' | h''
    · unfold dedupStep at h''
      split at h''
      · exact Or.inl h''
      · rcases List.mem_append.mp h'' with h3 | h3
        · exact Or.inl h3
        · exact Or.inr (List.mem_cons.mpr (Or.inl (List.mem_singleton.mp h3)))
    · exact Or.inr (List.mem_cons.mpr (Or.inr h''))

lemma dedupFinals_noop :
    ∀ (incoming existing : List TranscriptSegment),
      (∀ nf ∈ incoming, ∃ ex ∈ existing, sameFinal ex nf) →
      dedupFinals existing incoming = existing := by
  intro incoming
  induction incoming with
  | nil => intro ex _; rfl
  | cons hd t ih =>
    intro ex h
    have hstep : dedupStep ex hd = ex := by
      unfold dedupStep
      exact if_pos (h hd (List.mem_cons_self hd t))
    have : dedupFinals ex (hd :: t) = dedupFinals (dedupStep ex hd) t := by
      simp [dedupFinals, List.foldl_cons]
    rw [this, hstep]
    exact ih ex (fun nf hnf => h nf (List.mem_cons.mpr (Or.inr hnf)))

lemma applyResult_eq (prev : List TranscriptSegment) (tokens : List RawToken)
    (h : tokens ≠ []) :
    applyResult prev tokens =
      sortByStart (dedupFinals (prev.filter (fun s => s.isFinal)) (incFinals tokens)
        ++ incProvisionals tokens) := by
  unfold applyResult incFinals incProvisionals
  rw [if_neg (by simpa [List.isEmpty_iff] using h)]

lemma mem_applyResult (prev : List TranscriptSegment) (tokens : List RawToken)
    (h : tokens ≠ []) (x : TranscriptSegment) :
    x ∈ applyResult prev tokens ↔
      x ∈ dedupFinals (prev.filter (fun s => s.isFinal)) (incFinals tokens)
      ∨ x ∈ incProvisionals tokens := by
  rw [applyResult_eq prev tokens h]
  unfold sortByStart
  rw [List.mem_mergeSort, List.mem_append]

lemma isFinal_of_mem_dedupFinals (prev : List TranscriptSegment)
    (tokens : List RawToken) (x : TranscriptSegment)
    (h : x ∈ dedupFinals (prev.filter (fun s => s.isFinal)) (incFinals tokens)) :
    x.isFinal = true := by
  rcases mem_dedupFinals_src _ _ _ h with h' | h'
  · exact (List.mem_filter.mp h').2
  · have := (List.mem_filter.mp h').2
    simp only [Bool.and_eq_true] at this
    exact this.1

lemma not_isFinal_of_mem_incProvisionals (tokens : List RawToken)
    (x : TranscriptSegment) (h : x ∈ incProvisionals tokens) :
    x.isFinal = false := by
  have := (List.mem_filter.mp h).2
  simp only [Bool.and_eq_true, Bool.not_eq_true'] at this
  exact this.1

lemma finals_applyResult_perm (prev : List TranscriptSegment) (tokens : List RawToken)
    (h : tokens ≠ []) :
    ((applyResult prev tokens).filter (fun s => s.isFinal)).Perm
      (dedupFinals (prev.filter (fun s => s.isFinal)) (incFinals tokens)) := by
  rw [applyResult_eq prev tokens h]
  unfold sortByStart
  have hperm := List.mergeSort_perm
    (dedupFinals (prev.filter (fun s => s.isFinal)) (incFinals tokens)
      ++ incProvisionals tokens)
    (fun a b => decide (a.startTime ≤ b.startTime))
  refine (hperm.filter (fun s => s.isFinal)).trans ?_
  rw [List.filter_append]
  have h1 : (dedupFinals (prev.filter (fun s => s.isFinal)) (incFinals tokens)).filter
      (fun s => s.isFinal)
      = dedupFinals (prev.filter (fun s => s.isFinal)) (incFinals tokens) :=
    List.filter_eq_self.mpr (fun a ha => isFinal_of_mem_dedupFinals prev tokens a ha)
  have h2 : (incProvisionals tokens).filter (fun s => s.isFinal) = [] :=
    List.filter_eq_nil_iff.mpr (fun a ha => by
      simp [not_isFinal_of_mem_incProvisionals tokens a ha])
  rw [h1, h2, List.append_nil]

/-- C2: an incoming final token is treated as a duplicate (and not
inserted) if and only if some already-accepted final token has identical
text and a start-time difference strictly below 0.5 seconds; consequently
applying the same token batch twice leaves the final-token count equal to
applying it once. -/
theorem final_dedup_rule_and_idempotence :
    (∀ (acc : List TranscriptSegment) (nf : TranscriptSegment),
      dedupStep acc nf = acc ↔
        ∃ ex ∈ acc, ex.text = nf.text ∧ |ex.startTime - nf.startTime| < (1 : ℚ) / 2)
    ∧ ∀ (prev : List TranscriptSegment) (tokens : List RawToken),
        countFinals (applyResult (applyResult prev tokens) tokens)
          = countFinals (applyResult prev tokens) := by
  constructor
  · intro acc nf
    constructor
    · intro h
      by_contra hno
      have : dedupStep acc nf = acc ++ [nf] := by
        unfold dedupStep
        exact if_neg (by simpa [sameFinal] using hno)
      rw [this] at h
      have := congrArg List.length h
      simp at this
    · intro h
      unfold dedupStep
      exact if_pos (by simpa [sameFinal] using h)
  · intro prev tokens
    by_cases he : tokens = []
    · subst he
      simp [applyResult]
    · have hperm1 := finals_applyResult_perm prev tokens he
      have hperm2 := finals_applyResult_perm (applyResult prev tokens) tokens he
      have hcov : ∀ nf ∈ incFinals tokens,
          ∃ ex ∈ (applyResult prev tokens).filter (fun s => s.isFinal), sameFinal ex nf := by
        intro nf hnf
        obtain ⟨ex, hex, hm⟩ :=
          dedupFinals_covers (incFinals tokens) (prev.filter (fun s => s.isFinal)) nf hnf
        exact ⟨ex, hperm1.mem_iff.mpr hex, hm⟩
      have hnoop :
          dedupFinals ((applyResult prev tokens).filter (fun s => s.isFinal))
            (incFinals tokens)
          = (applyResult prev tokens).filter (fun s => s.isFinal) :=
        dedupFinals_noop (incFinals tokens) _ hcov
      unfold countFinals
      rw [hperm2.length_eq, hnoop]

/-- C3: final tokens already present in the transcript survive every
`applyResult` call: the finals after a call form a superset of the finals
before it. -/
theorem final_monotonicity (prev : List TranscriptSegment) (tokens : List RawToken)
    (t : TranscriptSegment) (hmem : t ∈ prev) (hfin : t.isFinal = true) :
    t ∈ applyResult prev tokens := by
  by_cases he : tokens = []
  · subst he
    simpa [applyResult] using hmem
  · rw [mem_applyResult prev tokens he]
    left
    exact mem_dedupFinals_of_mem _ _ _ (List.mem_filter.mpr ⟨hmem, by simp [hfin]⟩)

/-- Witness for C3 at a concrete transcript and batch. -/
theorem final_monotonicity_witness :
    (⟨"f1", "hello", 1, 2, true, 1⟩ : TranscriptSegment)
      ∈ applyResult [⟨"f1", "hello", 1, 2, true, 1⟩] [⟨"world", 3000, 4000, true, 1⟩] :=
  final_monotonicity _ _ _ (by decide) (by decide)

/-- C4 counterexample: an `applyResult` call with an empty incoming batch
(which contains no provisional tokens) leaves an earlier provisional
token in the transcript, because the `result.tokens.length > 0` guard
skips the update entirely. -/
theorem provisional_volatility_cex :
    ¬ countProvisionals
        (applyResult [⟨"p1", "hello", 1, 2, false, 1⟩] []) = 0 := by
  decide

/-- C4 amended: after any `applyResult` call whose incoming batch is
non-empty and contains no provisional token that survives the empty-text
filter, the transcript contains zero provisional tokens; and for any
non-empty batch, every provisional token of the result comes from that
batch. -/
theorem provisional_volatility_amended (prev : List TranscriptSegment)
    (tokens : List RawToken) (hne : tokens ≠ []) :
    ((∀ tk ∈ tokens, tk.is_final = true ∨ jsTrim tk.text = "") →
      countProvisionals (applyResult prev tokens) = 0)
    ∧ ∀ t ∈ applyResult prev tokens, t.isFinal = false → t ∈ tokens.map mapToken := by
  constructor
  · intro hall
    have hprov : incProvisionals tokens = [] := by
      apply List.filter_eq_nil_iff.mpr
      intro t ht
      obtain ⟨tk, htk, rfl⟩ := List.mem_map.mp ht
      rcases hall tk htk with h | h
      · simp [mapToken, h]
      · simp [mapToken, h]
    unfold countProvisionals
    suffices hfe : (applyResult prev tokens).filter (fun s => !s.isFinal) = [] by
      rw [hfe]; rfl
    apply List.filter_eq_nil_iff.mpr
    intro x hx
    rcases (mem_applyResult prev tokens hne x).mp hx with h | h
    · simp [isFinal_of_mem_dedupFinals prev tokens x h]
    · rw [hprov] at h
      cases h
  · intro t ht hprovt
    rcases (mem_applyResult prev tokens hne t).mp ht with h | h
    · rw [isFinal_of_mem_dedupFinals prev tokens t h] at hprovt
      cases hprovt
    · exact List.mem_of_mem_filter h

/-- Witness for the amended C4 at a concrete all-final batch. -/
theorem provisional_volatility_amended_witness :
    countProvisionals (applyResult [] [⟨"hi", 1000, 2000, true, 1⟩]) = 0 :=
  (provisional_volatility_amended [] [⟨"hi", 1000, 2000, true, 1⟩] (by decide)).1 (by decide)

/-- C5: `getRecentTranscript` returns exactly the tokens satisfying
`referenceTime - startTime <= horizonSeconds`, preserving transcript
order, and membership depends only on those quantities. -/
theorem recentWindow_spec :
    ∀ (referenceTime horizonSeconds : ℚ) (transcript : List TranscriptSegment),
      (getRecentTranscript referenceTime horizonSeconds transcript).Sublist transcript
      ∧ ∀ t, t ∈ getRecentTranscript referenceTime horizonSeconds transcript
          ↔ t ∈ transcript ∧ referenceTime - t.startTime ≤ horizonSeconds := by
  intro r h ts
  refine ⟨List.filter_sublist ts, fun t => ?_⟩
  simp [getRecentTranscript, List.mem_filter]

/-!
Helper lemmas about sentence segmentation.
-/

lemma toSentencesAux_nil (cur : String) (s e : ℚ) :
    toSentencesAux cur s e [] = if cur = "" then [] else [⟨cur, s, e, false⟩] := rfl

lemma toSentencesAux_cons_skip (cur : String) (s e : ℚ) (seg : TranscriptSegment)
    (rest : List TranscriptSegment) (h : jsTrim seg.text = "") :
    toSentencesAux cur s e (seg :: rest) = toSentencesAux cur s e rest := by
  conv_lhs => unfold toSentencesAux
  rw [if_pos h]

lemma toSentencesAux_cons_pos (cur : String) (s e : ℚ) (seg : TranscriptSegment)
    (rest : List TranscriptSegment) (h : jsTrim seg.text ≠ "") :
    toSentencesAux cur s e (seg :: rest) =
      if closesSentence seg rest then
        ⟨(if cur = "" then jsTrim seg.text else cur ++ " " ++ jsTrim seg.text),
         (if cur = "" then seg.startTime else s), seg.endTime, seg.isFinal⟩
          :: toSentencesAux "" (if cur = "" then seg.startTime else s) seg.endTime rest
      else
        toSentencesAux (if cur = "" then jsTrim seg.text else cur ++ " " ++ jsTrim seg.text)
          (if cur = "" then seg.startTime else s) seg.endTime rest := by
  conv_lhs => unfold toSentencesAux
  rw [if_neg h]

lemma filtTexts_nil : filtTexts [] = [] := rfl

lemma filtTexts_cons (seg : TranscriptSegment) (rest : List TranscriptSegment) :
    filtTexts (seg :: rest) =
      if jsTrim seg.text = "" then filtTexts rest
      else jsTrim seg.text :: filtTexts rest := by
  by_cases h : jsTrim seg.text = "" <;> simp [filtTexts, h]

lemma joinSp_cons_cons (x a : String) (l : List String) :
    joinSp (x :: a :: l) = x ++ " " ++ joinSp (a :: l) := rfl

lemma joinSp_glue (x t : String) (l : List String) :
    joinSp ((x ++ " " ++ t) :: l) = joinSp (x :: t :: l) := by
  cases l with
  | nil => rfl
  | cons a l' =>
    show (x ++ " " ++ t) ++ " " ++ joinSp (a :: l') = x ++ " " ++ (t ++ " " ++ joinSp (a :: l'))
    simp [String.append_assoc]

lemma joinSp_congr_tail (x : String) {L F : List String}
    (hj : joinSp L = joinSp F) (he : L = [] ↔ F = []) :
    joinSp (x :: L) = joinSp (x :: F) := by
  cases L with
  | nil =>
    have : F = [] := he.mp rfl
    subst this
    rfl
  | cons a l =>
    cases F with
    | nil => exact absurd (he.mpr rfl) (by simp)
    | cons b m => rw [joinSp_cons_cons, joinSp_cons_cons, hj]

lemma strAppend_ne_empty (a b : String) : a ++ " " ++ b ≠ "" := by
  intro h
  have hd := congrArg String.data h
  rw [String.data_append, String.data_append] at hd
  have hsp : (" " : String).data = [' '] := rfl
  rw [hsp] at hd
  have hnil : ("" : String).data = [] := rfl
  rw [hnil] at hd
  rcases List.append_eq_nil.mp hd with ⟨h1, h2⟩
  rcases List.append_eq_nil.mp h1 with ⟨h3, h4⟩
  cases h4

lemma toSentencesAux_texts :
    ∀ (ts : List TranscriptSegment) (cur : String) (s e : ℚ),
      (toSentencesAux cur s e ts = []
        ↔ (if cur = "" then filtTexts ts else cur :: filtTexts ts) = [])
      ∧ joinSp ((toSentencesAux cur s e ts).map Sentence.text)
          = joinSp (if cur = "" then filtTexts ts else cur :: filtTexts ts) := by
  intro ts
  induction ts with
  | nil =>
    intro cur s e
    by_cases hc : cur = ""
    · subst hc
      rw [toSentencesAux_nil, filtTexts_nil]
      exact ⟨by simp, by simp⟩
    · rw [toSentencesAux_nil, if_neg hc, if_neg hc, filtTexts_nil]
      exact ⟨by simp, rfl⟩
  | cons seg rest ih =>
    intro cur s e
    by_cases ht : jsTrim seg.text = ""
    · rw [toSentencesAux_cons_skip cur s e seg rest ht, filtTexts_cons, if_pos ht]
      exact ih cur s e
    · rw [toSentencesAux_cons_pos cur s e seg rest ht, filtTexts_cons, if_neg ht]
      by_cases hcl : closesSentence seg rest = true
      · rw [if_pos hcl]
        have ihE := (ih "" (if cur = "" then seg.startTime else s) seg.endTime).1
        have ihJ := (ih "" (if cur = "" then seg.startTime else s) seg.endTime).2
        have hif : (if ("" : String) = "" then filtTexts rest else "" :: filtTexts rest)
            = filtTexts rest := if_pos rfl
        rw [hif] at ihE ihJ
        have hLF : (toSentencesAux "" (if cur = "" then seg.startTime else s)
            seg.endTime rest).map Sentence.text = [] ↔ filtTexts rest = [] := by
          rw [List.map_eq_nil_iff, ihE]
        constructor
        · by_cases hc : cur = ""
          · subst hc; simp
          · simp [hc]
        · have key := joinSp_congr_tail
            (if cur = "" then jsTrim seg.text else cur ++ " " ++ jsTrim seg.text) ihJ hLF
          rw [List.map_cons, key]
          by_cases hc : cur = ""
          · subst hc; simp
          · rw [if_neg hc, if_neg hc]
            exact joinSp_glue cur (jsTrim seg.text) (filtTexts rest)
      · rw [if_neg hcl]
        have hcur' : (if cur = "" then jsTrim seg.text else cur ++ " " ++ jsTrim seg.text) ≠ "" := by
          by_cases hc : cur = ""
          · rw [if_pos hc]; exact ht
          · rw [if_neg hc]
            exact strAppend_ne_empty cur (jsTrim seg.text)
        have ihE := (ih (if cur = "" then jsTrim seg.text else cur ++ " " ++ jsTrim seg.text)
          (if cur = "" then seg.startTime else s) seg.endTime).1
        have ihJ := (ih (if cur = "" then jsTrim seg.text else cur ++ " " ++ jsTrim seg.text)
          (if cur = "" then seg.startTime else s) seg.endTime).2
        rw [if_neg hcur'] at ihE ihJ
        constructor
        · rw [ihE]
          by_cases hc : cur = ""
          · subst hc; simp
          · simp [hc]
        · rw [ihJ]
          by_cases hc : cur = ""
          · subst hc; simp
          · rw [if_neg hc, if_neg hc]
            exact joinSp_glue cur (jsTrim seg.text) (filtTexts rest)

/-- C1: the expensive generator is invoked exactly for `subject_based`
classifications; `guidance` yields the fixed language-appropriate
acknowledgment without invoking the generator, and `noise` yields a null
reply without invoking the generator (the response is then independent of
the generator's output). -/
theorem triage_gating (cls : LLMResponse) (language : String) (gen : LLMResponse) :
    (invokesGenerator cls = true ↔ cls.category = "subject_based")
    ∧ (cls.category = "subject_based" →
        (routeResponse cls language gen).reply = some (answerOrFallback gen.answer))
    ∧ (cls.category = "guidance" →
        (routeResponse cls language gen).reply = some (guidanceReply language)
        ∧ invokesGenerator cls = false)
    ∧ (cls.category = "noise" →
        (routeResponse cls language gen).reply = none ∧ invokesGenerator cls = false)
    ∧ (invokesGenerator cls = false →
        ∀ gen', routeResponse cls language gen = routeResponse cls language gen') := by
  refine ⟨?_, ?_, ?_, ?_, ?_⟩
  · unfold invokesGenerator
    simp
  · intro h
    simp [routeResponse, h]
  · intro h
    have hns : cls.category ≠ "subject_based" := by rw [h]; decide
    refine ⟨?_, ?_⟩
    · simp [routeResponse, hns, h]
    · simp [invokesGenerator, hns]
  · intro h
    have hns : cls.category ≠ "subject_based" := by rw [h]; decide
    have hng : cls.category ≠ "guidance" := by rw [h]; decide
    refine ⟨?_, ?_⟩
    · simp [routeResponse, hns, hng]
    · simp [invokesGenerator, hns]
  · intro h gen'
    have hns : cls.category ≠ "subject_based" := by
      simpa [invokesGenerator] using h
    simp [routeResponse, hns]

/-- Witness for C1 at concrete `guidance` and `noise` classifications. -/
theorem triage_gating_witness :
    ((routeResponse ⟨false, "guidance", 1, "r", none⟩ "hindi"
        ⟨true, "x", 1, "r", some "a"⟩).reply = some (guidanceReply "hindi")
      ∧ invokesGenerator (⟨false, "guidance", 1, "r", none⟩ : LLMResponse) = false)
    ∧ ((routeResponse ⟨false, "noise", 1, "r", none⟩ "hindi"
        ⟨true, "x", 1, "r", some "a"⟩).reply = none
      ∧ invokesGenerator (⟨false, "noise", 1, "r", none⟩ : LLMResponse) = false) :=
  ⟨(triage_gating ⟨false, "guidance", 1, "r", none⟩ "hindi"
      ⟨true, "x", 1, "r", some "a"⟩).2.2.1 rfl,
   (triage_gating ⟨false, "noise", 1, "r", none⟩ "hindi"
      ⟨true, "x", 1, "r", some "a"⟩).2.2.2.1 rfl⟩

/-- C7: when neither the cleaned content nor the first-to-last-brace
substring parses, `extractJsonResponse` returns the safe default
(`category = "error"`, `is_genuine = false`), and that category is routed
like noise: a null reply without invoking the generator. -/
theorem classify_parse_fallback (parse : String → Option LLMResponse) (content : String)
    (h1 : parse (stripFences content) = none)
    (h2 : ∀ sub, braceSubstring content = some sub → parse sub = none) :
    extractJsonResponse parse content = errorClassification
    ∧ ∀ (language : String) (gen : LLMResponse),
        (routeResponse (extractJsonResponse parse content) language gen).reply = none
        ∧ invokesGenerator (extractJsonResponse parse content) = false := by
  have hx : extractJsonResponse parse content = errorClassification := by
    unfold extractJsonResponse
    cases hb : braceSubstring content with
    | none => rw [h1]
    | some sub =>
      rw [h1]
      show (parse sub).getD errorClassification = errorClassification
      rw [h2 sub hb]
      rfl
  refine ⟨hx, fun language gen => ?_⟩
  rw [hx]
  have hns : errorClassification.category ≠ "subject_based" := by decide
  have hng : errorClassification.category ≠ "guidance" := by decide
  exact ⟨by simp [routeResponse, hns, hng], by simp [invokesGenerator, hns]⟩

/-- Witness for C7: a parse oracle that always fails on a content without
braces. -/
theorem classify_parse_fallback_witness :
    extractJsonResponse (fun _ => none) "unparseable narrative" = errorClassification
    ∧ (routeResponse (extractJsonResponse (fun _ => none) "unparseable narrative")
        "hindi" errorClassification).reply = none :=
  ⟨(classify_parse_fallback (fun _ => none) "unparseable narrative" rfl
      (fun _ _ => rfl)).1,
   ((classify_parse_fallback (fun _ => none) "unparseable narrative" rfl
      (fun _ _ => rfl)).2 "hindi" errorClassification).1⟩

/-- C8: on the `subject_based` path the reply is never an empty non-null
string: an empty or missing generator answer is replaced by the fixed
clarification-request string. -/
theorem genuine_reply_never_empty (cls : LLMResponse) (language : String)
    (gen : LLMResponse) (h : cls.category = "subject_based") :
    (routeResponse cls language gen).reply = some (answerOrFallback gen.answer)
    ∧ answerOrFallback gen.answer ≠ ""
    ∧ ((gen.answer = none ∨ gen.answer = some "") →
        answerOrFallback gen.answer = clarificationFallback) := by
  refine ⟨by simp [routeResponse, h], ?_, ?_⟩
  · unfold answerOrFallback
    cases gen.answer with
    | none => decide
    | some a =>
      show (if a = "" then clarificationFallback else a) ≠ ""
      by_cases ha : a = ""
      · rw [if_pos ha]; decide
      · rw [if_neg ha]; exact ha
  · rintro (h1 | h1) <;> simp [answerOrFallback, h1]

/-- Witness for C8 at a concrete genuine classification with an empty
generator answer. -/
theorem genuine_reply_never_empty_witness :
    (routeResponse ⟨true, "subject_based", 1, "r", none⟩ "hindi"
        ⟨true, "subject_doubt", 1, "r", some ""⟩).reply
      = some (answerOrFallback (some ""))
    ∧ answerOrFallback (some "") ≠ ""
    ∧ answerOrFallback (some "") = clarificationFallback := by
  obtain ⟨ha, hb, hc⟩ := genuine_reply_never_empty
    ⟨true, "subject_based", 1, "r", none⟩ "hindi"
    ⟨true, "subject_doubt", 1, "r", some ""⟩ rfl
  exact ⟨ha, hb, hc (Or.inr rfl)⟩

/-- C9: the envelope's classification block always comes from the cheap
classifier, and the generator's output influences the response only
through its `answer` field. -/
theorem envelope_classification_source (cls : LLMResponse) (language : String)
    (gen gen' : LLMResponse) :
    (routeResponse cls language gen).classification = projCls cls
    ∧ (gen.answer = gen'.answer →
        routeResponse cls language gen = routeResponse cls language gen') := by
  constructor
  · unfold routeResponse
    split <;> rfl
  · intro h
    unfold routeResponse
    split <;> simp [h]

/-- Witness for C9: two generator outputs differing in every field except
`answer` give identical responses. -/
theorem envelope_classification_source_witness :
    routeResponse ⟨true, "subject_based", 1, "r", none⟩ "hindi"
        ⟨true, "subject_doubt", 1, "ra", some "ans"⟩
      = routeResponse ⟨true, "subject_based", 1, "r", none⟩ "hindi"
        ⟨false, "noise", 0, "rb", some "ans"⟩ :=
  (envelope_classification_source ⟨true, "subject_based", 1, "r", none⟩ "hindi"
    ⟨true, "subject_doubt", 1, "ra", some "ans"⟩
    ⟨false, "noise", 0, "rb", some "ans"⟩).2 rfl

/-- C6: processing a token with non-empty trimmed text closes the
current sentence exactly when `closesSentence` holds — the text ends in a
Latin or Devanagari terminal mark, or the gap to the next token's start
exceeds 2 seconds, or the token is the last of the transcript and final —
and an unterminated trailing buffer is emitted as a sentence marked
non-final. -/
theorem sentence_closure_rule (cur : String) (sStart sEnd : ℚ)
    (seg : TranscriptSegment) (rest : List TranscriptSegment)
    (h : jsTrim seg.text ≠ "") :
    (toSentencesAux cur sStart sEnd (seg :: rest) =
      if closesSentence seg rest then
        ⟨(if cur = "" then jsTrim seg.text else cur ++ " " ++ jsTrim seg.text),
         (if cur = "" then seg.startTime else sStart), seg.endTime, seg.isFinal⟩
          :: toSentencesAux "" (if cur = "" then seg.startTime else sStart) seg.endTime rest
      else
        toSentencesAux (if cur = "" then jsTrim seg.text else cur ++ " " ++ jsTrim seg.text)
          (if cur = "" then seg.startTime else sStart) seg.endTime rest)
    ∧ (cur ≠ "" → toSentencesAux cur sStart sEnd [] = [⟨cur, sStart, sEnd, false⟩]) :=
  ⟨toSentencesAux_cons_pos cur sStart sEnd seg rest h,
   fun h' => by rw [toSentencesAux_nil, if_neg h']⟩

/-- Witness for C6 at a concrete token ending in a Devanagari danda and a
concrete non-empty trailing buffer. -/
theorem sentence_closure_rule_witness :
    (toSentencesAux "x" 0 1 [⟨"a", "hi।", 2, 3, true, 1⟩] =
      if closesSentence ⟨"a", "hi।", 2, 3, true, 1⟩ [] then
        ⟨(if ("x" : String) = "" then jsTrim "hi।" else "x" ++ " " ++ jsTrim "hi।"),
         (if ("x" : String) = "" then 2 else 0), 3, true⟩
          :: toSentencesAux "" (if ("x" : String) = "" then 2 else 0) 3 []
      else
        toSentencesAux (if ("x" : String) = "" then jsTrim "hi।" else "x" ++ " " ++ jsTrim "hi।")
          (if ("x" : String) = "" then 2 else 0) 3 [])
    ∧ toSentencesAux "x" 0 1 [] = [⟨"x", 0, 1, false⟩] :=
  ⟨(sentence_closure_rule "x" 0 1 ⟨"a", "hi।", 2, 3, true, 1⟩ [] (by decide)).1,
   (sentence_closure_rule "x" 0 1 ⟨"a", "hi।", 2, 3, true, 1⟩ [] (by decide)).2 (by decide)⟩

/-- C10: sentence segmentation loses and duplicates no text — the
space-separated concatenation of the sentences produced by `toSentences`
equals the space-separated concatenation of the non-empty trimmed token
texts, in transcript order. -/
theorem sentence_text_preservation :
    ∀ ts : List TranscriptSegment,
      joinSp ((toSentences ts).map Sentence.text) = joinSp (filtTexts ts) := by
  intro ts
  cases ts with
  | nil => rfl
  | cons seg rest =>
    have h := (toSentencesAux_texts (seg :: rest) "" 0 0).2
    have hif : (if ("" : String) = "" then filtTexts (seg :: rest)
        else "" :: filtTexts (seg :: rest)) = filtTexts (seg :: rest) := if_pos rfl
    rw [hif] at h
    have hts : toSentences (seg :: rest) = toSentencesAux "" 0 0 (seg :: rest) := by
      unfold toSentences
      rfl
    rw [hts]
    exact h

end DoubtChat
